import Mathlib

/-!
Verification of the forecast reducer and unit/display formatter of a
weather-lookup front end (`src/App.js`).

The reducer `getDailyForecast` collapses a list of 3-hour forecast samples
into at most five daily representatives, keeping the first sample seen for
each date (the part of `dt_txt` before the first space).  The formatter
functions `toTemp`, `toWind` and `getDescription` convert raw imperial
values for display and map condition codes to canned phrases.

Modelling conventions:
* a JS forecast item becomes the structure `Sample` (only the fields the
  code reads);
* the plain JS object `dailyMap` becomes an insertion-ordered association
  list `List (List Char × Sample)` (string keys of date shape preserve
  insertion order in JS; `Object.values` returns values in that order);
* `item.dt_txt.split(" ")[0]` becomes `takeWhile (· != ' ')` on the
  character list (the first field of a single-character split is exactly
  the longest prefix without the separator, for every string);
* JS numbers become `Rat`: the conversions here are single subtractions,
  multiplications and divisions on small literals, which we treat exactly;
* the `unit` state variable is a `String`, as in the source, so that
  behaviour at unexpected unit values is faithfully represented.
-/

/-- The nested `main` object of a forecast item: `main.temp`,
`main.feels_like`, `main.humidity`. -/
structure MainData where
  temp : Rat
  feels_like : Rat
  humidity : Nat
deriving DecidableEq

/-- One element of a forecast item's `weather` array:
`weather[i].main`, `weather[i].description`, `weather[i].icon`. -/
structure WeatherEntry where
  main : String
  description : String
  icon : String
deriving DecidableEq

/-- One forecast item of the upstream `list`, with the fields the app
reads: `dt_txt`, `main`, `weather`. -/
structure Sample where
  dt_txt : String
  main : MainData
  weather : List WeatherEntry
deriving DecidableEq

/-- The date key of a sample: `item.dt_txt.split(" ")[0]`, i.e. the
characters of `dt_txt` strictly before the first space (the whole string
when there is no space). -/
def dateOf (item : Sample) : List Char :=
  item.dt_txt.data.takeWhile (fun c => c != ' ')

/-- One step of the reducer's loop body:
`if (!dailyMap[date]) { dailyMap[date] = item }` on the insertion-ordered
association list modelling `dailyMap`. -/
def insertDaily (m : List (List Char × Sample)) (item : Sample) :
    List (List Char × Sample) :=
  if dateOf item ∈ m.map Prod.fst then m else m ++ [(dateOf item, item)]

/-- `getDailyForecast` from `src/App.js`: fold the loop body over the
list, then `Object.values(dailyMap).slice(0, 5)`. -/
def getDailyForecast (list : List Sample) : List Sample :=
  (((list.foldl insertDaily []).map Prod.snd).take 5)

/-- `toTemp` from `src/App.js`:
`unit === 'imperial' ? f : (f - 32) * (5/9)`. -/
def toTemp (unit : String) (f : Rat) : Rat :=
  if unit = "imperial" then f else (f - 32) * (5 / 9)

/-- `toWind` from `src/App.js`:
`unit === 'imperial' ? mph : mph / 2.23694`. -/
def toWind (unit : String) (mph : Rat) : Rat :=
  if unit = "imperial" then mph else mph / (223694 / 100000)

/-- The module-level derived value
`const condition = data.weather ? data.weather[0].main : ''`.
`data.weather` is modelled as `Option (List WeatherEntry)`; a present but
empty array is truthy in JS yet makes `data.weather[0].main` throw, so
that case is modelled as `none` (no value produced). -/
def condition (dataWeather : Option (List WeatherEntry)) : Option String :=
  match dataWeather with
  | none => some ""
  | some [] => none
  | some (e :: _) => some e.main

/-- The `switch (condition)` body of `getDescription`: the seven canned
phrases, and the default branch `Weather: ` followed by
`weather[0].main`. -/
def getDescriptionSwitch (cond : String) (wmain : String) : String :=
  if cond = "Clear" then "It's sunny today! ☀️"
  else if cond = "Clouds" then "It's cloudy today! ☁️"
  else if cond = "Rain" then "It's rainy today! 🌧️"
  else if cond = "Thunderstorm" then "Thunderstorms ahead ⛈️"
  else if cond = "Snow" then "It's snowing today! ❄️"
  else if cond = "Drizzle" then "It's drizzling today! ☔"
  else if cond = "Mist" then "It's misty today! 🌫️"
  else "Weather: " ++ wmain

/-- `getDescription(weather)` from `src/App.js`: returns `''` when the
argument is absent or its first element is absent, otherwise switches on
the module-level `condition` (derived from `data.weather`, the first
argument here; the app calls `getDescription(data.weather)`, so both
arguments coincide at the call site). -/
def getDescription (dataWeather : Option (List WeatherEntry))
    (weather : Option (List WeatherEntry)) : Option String :=
  match weather with
  | none => some ""
  | some [] => some ""
  | some (w :: _) =>
      (condition dataWeather).map (fun c => getDescriptionSwitch c w.main)

/-- A concrete well-formed sample (first slot of 2025-08-08). -/
def sampleA : Sample :=
  ⟨"2025-08-08 00:00:00", ⟨70, 69, 50⟩, [⟨"Clear", "clear sky", "01d"⟩]⟩

/-- A concrete well-formed sample on the same day as `sampleA`. -/
def sampleA2 : Sample :=
  ⟨"2025-08-08 03:00:00", ⟨68, 67, 55⟩, [⟨"Clouds", "few clouds", "02d"⟩]⟩

/-- A concrete well-formed sample on the following day. -/
def sampleB : Sample :=
  ⟨"2025-08-09 00:00:00", ⟨72, 71, 45⟩, [⟨"Rain", "light rain", "10d"⟩]⟩

/-- A concrete sample whose `dt_txt` has no space separator. -/
def sampleBad : Sample :=
  ⟨"bad-timestamp", ⟨60, 59, 40⟩, [⟨"Mist", "mist", "50d"⟩]⟩

/-- Spec-side reducer (for the refinement claims): a linear scan keeping
the first sample of each not-yet-seen date, with `seen` the set of dates
already represented; the spec's "mapping from date-string to Sample,
keyed by first occurrence". -/
def specKeepFirstPerDay : List (List Char) → List Sample → List Sample
  | _, [] => []
  | seen, i :: rest =>
      if dateOf i ∈ seen then specKeepFirstPerDay seen rest
      else i :: specKeepFirstPerDay (seen ++ [dateOf i]) rest

/-- The entries the fold appends to an association list whose key set is
`seen`, in order. -/
def newEntries : List (List Char) → List Sample → List (List Char × Sample)
  | _, [] => []
  | seen, i :: rest =>
      if dateOf i ∈ seen then newEntries seen rest
      else (dateOf i, i) :: newEntries (seen ++ [dateOf i]) rest

/-- Lexicographic comparison of character lists, the order JS string
comparison induces on the code units appearing here. -/
def lexLe : List Char → List Char → Bool
  | [], _ => true
  | _ :: _, [] => false
  | a :: s, b :: t => if a < b then true else if b < a then false else lexLe s t

lemma foldl_insertDaily_eq (l : List Sample) :
    ∀ m : List (List Char × Sample),
      l.foldl insertDaily m = m ++ newEntries (m.map Prod.fst) l := by
  induction l with
  | nil => intro m; simp [newEntries]
  | cons i rest ih =>
      intro m
      by_cases h : dateOf i ∈ m.map Prod.fst
      · simp only [List.foldl_cons, insertDaily, if_pos h, newEntries, ih]
      · simp only [List.foldl_cons, insertDaily, if_neg h, newEntries, ih,
          List.map_append, List.map_cons, List.map_nil, List.append_assoc,
          List.singleton_append]

lemma snd_newEntries (l : List Sample) :
    ∀ seen, (newEntries seen l).map Prod.snd = specKeepFirstPerDay seen l := by
  induction l with
  | nil => intro seen; simp [newEntries, specKeepFirstPerDay]
  | cons i rest ih =>
      intro seen
      by_cases h : dateOf i ∈ seen
      · simp [newEntries, specKeepFirstPerDay, if_pos h, ih]
      · simp [newEntries, specKeepFirstPerDay, if_neg h, ih]

lemma fst_newEntries (l : List Sample) :
    ∀ seen, (newEntries seen l).map Prod.fst =
      (specKeepFirstPerDay seen l).map dateOf := by
  induction l with
  | nil => intro seen; simp [newEntries, specKeepFirstPerDay]
  | cons i rest ih =>
      intro seen
      by_cases h : dateOf i ∈ seen
      · simp [newEntries, specKeepFirstPerDay, if_pos h, ih]
      · simp [newEntries, specKeepFirstPerDay, if_neg h, ih]

/-- Refinement: the reducer is the spec-side first-per-day scan,
truncated to five entries. -/
lemma getDailyForecast_eq (l : List Sample) :
    getDailyForecast l = (specKeepFirstPerDay [] l).take 5 := by
  simp [getDailyForecast, foldl_insertDaily_eq, snd_newEntries]

lemma mem_dates_specKeep (l : List Sample) (d : List Char) :
    ∀ seen, d ∈ (specKeepFirstPerDay seen l).map dateOf ↔
      d ∈ l.map dateOf ∧ d ∉ seen := by
  induction l with
  | nil => intro seen; simp [specKeepFirstPerDay]
  | cons i rest ih =>
      intro seen
      by_cases h : dateOf i ∈ seen
      · simp only [specKeepFirstPerDay, if_pos h, ih, List.map_cons,
          List.mem_cons]
        constructor
        · rintro ⟨hm, hs⟩
          exact ⟨Or.inr hm, hs⟩
        · rintro ⟨hm | hm, hs⟩
          · exact absurd (hm.symm ▸ h) hs
          · exact ⟨hm, hs⟩
      · simp only [specKeepFirstPerDay, if_neg h, List.map_cons,
          List.mem_cons, ih, List.mem_append, List.not_mem_nil, or_false]
        constructor
        · rintro (hm | ⟨hm, hs⟩)
          · exact ⟨Or.inl hm, hm.symm ▸ h⟩
          · exact ⟨Or.inr hm, fun hc => hs (Or.inl hc)⟩
        · rintro ⟨hm | hm, hs⟩
          · exact Or.inl hm
          · by_cases hd : d = dateOf i
            · exact Or.inl hd
            · exact Or.inr ⟨hm, fun hc => hc.elim hs hd⟩

lemma nodup_dates_specKeep (l : List Sample) :
    ∀ seen, ((specKeepFirstPerDay seen l).map dateOf).Nodup := by
  induction l with
  | nil => intro seen; simp [specKeepFirstPerDay]
  | cons i rest ih =>
      intro seen
      by_cases h : dateOf i ∈ seen
      · simpa [specKeepFirstPerDay, if_pos h] using ih seen
      · simp only [specKeepFirstPerDay, if_neg h, List.map_cons,
          List.nodup_cons]
        refine ⟨fun hc => ?_, ih (seen ++ [dateOf i])⟩
        have := (mem_dates_specKeep rest (dateOf i)
          (seen ++ [dateOf i])).mp hc
        exact this.2 (by simp)

lemma toFinset_dates_specKeep (l : List Sample) :
    ((specKeepFirstPerDay [] l).map dateOf).toFinset =
      (l.map dateOf).toFinset := by
  ext d
  simp only [List.mem_toFinset]
  rw [mem_dates_specKeep]
  simp

lemma length_specKeep (l : List Sample) :
    (specKeepFirstPerDay [] l).length = (l.map dateOf).dedup.length := by
  have h1 : (specKeepFirstPerDay [] l).length =
      ((specKeepFirstPerDay [] l).map dateOf).length :=
    (List.length_map _ _).symm
  have h2 : ((specKeepFirstPerDay [] l).map dateOf).toFinset.card =
      ((specKeepFirstPerDay [] l).map dateOf).length :=
    List.toFinset_card_of_nodup (nodup_dates_specKeep l [])
  rw [h1, ← h2, toFinset_dates_specKeep, List.card_toFinset]

lemma specKeep_sublist (l : List Sample) :
    ∀ seen, (specKeepFirstPerDay seen l).Sublist l := by
  induction l with
  | nil => intro seen; simp [specKeepFirstPerDay]
  | cons i rest ih =>
      intro seen
      by_cases h : dateOf i ∈ seen
      · simpa [specKeepFirstPerDay, if_pos h] using (ih seen).cons i
      · simpa [specKeepFirstPerDay, if_neg h] using
          (ih (seen ++ [dateOf i])).cons₂ i

/-- C1: the reducer keeps exactly the first sample for each distinct
date (the part of `dt_txt` before the first space), in the order the
dates first appear, discarding later same-date samples; the output is
this first-per-day sequence truncated to the first five entries. -/
theorem reducer_keeps_first_sample_per_date (l : List Sample) :
    getDailyForecast l = (specKeepFirstPerDay [] l).take 5 :=
  getDailyForecast_eq l

lemma lexLe_takeWhile :
    ∀ s t : List Char, (∀ c ∈ s, ' ' ≤ c) → lexLe s t = true →
      lexLe (s.takeWhile (fun c => c != ' '))
        (t.takeWhile (fun c => c != ' ')) = true := by
  intro s
  induction s with
  | nil => intro t _ _; simp [lexLe]
  | cons a as ih =>
      intro t hs h
      cases t with
      | nil => simp [lexLe] at h
      | cons b bs =>
          by_cases ha : a = ' '
          · subst ha
            simp [List.takeWhile_cons, lexLe]
          · have haS : ' ' < a :=
              lt_of_le_of_ne (hs a (by simp)) (Ne.symm ha)
            rcases lt_trichotomy a b with hab | hab | hab
            · have hb : ¬ b = ' ' := by
                intro hbe
                exact absurd (hbe ▸ hab) (not_lt_of_gt haS)
              simp [List.takeWhile_cons, ha, hb, lexLe, hab]
            · subst hab
              have h' : lexLe as bs = true := by
                simpa [lexLe, lt_irrefl] using h
              simpa [List.takeWhile_cons, ha, lexLe, lt_irrefl] using
                ih bs (fun c hc => hs c (by simp [hc])) h'
            · have hfalse : lexLe (a :: as) (b :: bs) = false := by
                simp [lexLe, hab, not_lt_of_gt hab]
              rw [hfalse] at h
              cases h

/-- C2: the output length is `min (number of distinct date components) 5`,
and the empty input yields the empty output. -/
theorem reducer_output_length (l : List Sample) :
    (getDailyForecast l).length = min ((l.map dateOf).dedup.length) 5 ∧
      getDailyForecast ([] : List Sample) = [] := by
  constructor
  · rw [getDailyForecast_eq, List.length_take, length_specKeep,
      Nat.min_comm]
  · rfl

/-- C4: if the input list is sorted by ascending timestamp (`dt_txt`
compared lexicographically; its characters are all at least the space
character, as in the `YYYY-MM-DD HH:MM:SS` format), then the reducer's
output is sorted by ascending date component. -/
theorem reducer_preserves_date_order (l : List Sample)
    (hchars : ∀ i ∈ l, ∀ c ∈ i.dt_txt.data, ' ' ≤ c)
    (hsorted : l.Pairwise
      (fun a b => lexLe a.dt_txt.data b.dt_txt.data = true)) :
    (getDailyForecast l).Pairwise
      (fun a b => lexLe (dateOf a) (dateOf b) = true) := by
  have hdates : l.Pairwise
      (fun a b => lexLe (dateOf a) (dateOf b) = true) := by
    refine hsorted.imp_of_mem ?_
    intro a b hma _ hab
    exact lexLe_takeWhile _ _ (hchars a hma) hab
  have hsub : (getDailyForecast l).Sublist l := by
    rw [getDailyForecast_eq]
    exact (List.take_sublist _ _).trans (specKeep_sublist l [])
  exact hdates.sublist hsub

theorem reducer_preserves_date_order_witness :
    ((∀ i ∈ [sampleA, sampleB], ∀ c ∈ i.dt_txt.data, ' ' ≤ c) ∧
      [sampleA, sampleB].Pairwise
        (fun a b => lexLe a.dt_txt.data b.dt_txt.data = true)) ∧
    (getDailyForecast [sampleA, sampleB]).Pairwise
      (fun a b => lexLe (dateOf a) (dateOf b) = true) :=
  ⟨⟨by decide, by decide⟩,
    reducer_preserves_date_order [sampleA, sampleB] (by decide) (by decide)⟩

lemma specKeep_eq_self (m : List Sample) :
    ∀ seen, (∀ i ∈ m, dateOf i ∉ seen) → (m.map dateOf).Nodup →
      specKeepFirstPerDay seen m = m := by
  induction m with
  | nil => intro seen _ _; simp [specKeepFirstPerDay]
  | cons i rest ih =>
      intro seen hseen hnd
      have hi : dateOf i ∉ seen := hseen i (by simp)
      simp only [List.map_cons, List.nodup_cons] at hnd
      simp only [specKeepFirstPerDay, if_neg hi]
      congr 1
      apply ih
      · intro j hj hc
        rcases List.mem_append.mp hc with hc | hc
        · exact hseen j (List.mem_cons_of_mem i hj) hc
        · have he : dateOf j = dateOf i := by simpa using hc
          exact hnd.1 (he ▸ List.mem_map_of_mem dateOf hj)
      · exact hnd.2

/-- C5: the reducer is idempotent: applied to its own output (already
one sample per day, at most five entries) it returns it unchanged. -/
theorem reducer_idempotent (l : List Sample) :
    getDailyForecast (getDailyForecast l) = getDailyForecast l := by
  have hnd : ((getDailyForecast l).map dateOf).Nodup := by
    rw [getDailyForecast_eq]
    exact List.Nodup.sublist ((List.take_sublist 5 _).map dateOf)
      (nodup_dates_specKeep l [])
  have hlen : (getDailyForecast l).length ≤ 5 := by
    rw [getDailyForecast_eq]
    exact List.length_take_le 5 _
  calc getDailyForecast (getDailyForecast l)
      = (specKeepFirstPerDay [] (getDailyForecast l)).take 5 :=
        getDailyForecast_eq _
    _ = (getDailyForecast l).take 5 := by
        rw [specKeep_eq_self (getDailyForecast l) [] (by simp) hnd]
    _ = getDailyForecast l := List.take_of_length_le hlen

lemma takeWhile_ne_space_eq_self (cs : List Char) (h : ¬ ' ' ∈ cs) :
    cs.takeWhile (fun c => c != ' ') = cs := by
  induction cs with
  | nil => rfl
  | cons a as ih =>
      have ha : a ≠ ' ' := fun he => h (by simp [he])
      rw [List.takeWhile_cons_of_pos (by simp [ha])]
      rw [ih (fun hm => h (List.mem_cons_of_mem a hm))]

lemma dateOf_of_no_space (item : Sample) (h : ¬ ' ' ∈ item.dt_txt.data) :
    dateOf item = item.dt_txt.data :=
  takeWhile_ne_space_eq_self item.dt_txt.data h

/-- C6: `toTemp` is the identity under the imperial unit and applies
`(value - 32) * 5/9` under the metric unit; in particular 32 °F becomes
0 °C and 212 °F becomes 100 °C. -/
theorem toTemp_conversion (f : Rat) :
    toTemp "imperial" f = f ∧ toTemp "metric" f = (f - 32) * (5 / 9) ∧
      toTemp "metric" 32 = 0 ∧ toTemp "metric" 212 = 100 := by
  have hm : ("metric" : String) ≠ "imperial" := by decide
  refine ⟨by simp [toTemp], by simp [toTemp, hm], ?_, ?_⟩ <;>
    norm_num [toTemp, hm]

/-- C7: `toWind` is the identity under the imperial unit and divides by
2.23694 under the metric unit; 0 mph becomes 0 m/s and 2.23694 mph
becomes exactly 1 m/s (the conversions are modelled exactly over the
rationals, so the claim's floating-point tolerance is met). -/
theorem toWind_conversion (x : Rat) :
    toWind "imperial" x = x ∧ toWind "metric" x = x / (223694 / 100000) ∧
      toWind "metric" 0 = 0 ∧ toWind "metric" (223694 / 100000) = 1 := by
  have hm : ("metric" : String) ≠ "imperial" := by decide
  refine ⟨by simp [toWind], by simp [toWind, hm], ?_, ?_⟩ <;>
    norm_num [toWind, hm]

/-- C8: at the app's call site (`getDescription(data.weather)`, with
`condition` derived from the same `data.weather`), each of the seven
enumerated condition codes maps to its fixed canned phrase by
case-sensitive exact match, and any code outside the set yields the
generic fallback `"Weather: "` followed by the raw code. -/
theorem getDescription_condition_codes (c d i : String)
    (rest : List WeatherEntry)
    (h : c ∉ ["Clear", "Clouds", "Rain", "Thunderstorm", "Snow",
      "Drizzle", "Mist"]) :
    getDescription (some (⟨c, d, i⟩ :: rest)) (some (⟨c, d, i⟩ :: rest)) =
        some ("Weather: " ++ c) ∧
      getDescription (some (⟨"Clear", d, i⟩ :: rest))
        (some (⟨"Clear", d, i⟩ :: rest)) = some "It's sunny today! ☀️" ∧
      getDescription (some (⟨"Clouds", d, i⟩ :: rest))
        (some (⟨"Clouds", d, i⟩ :: rest)) = some "It's cloudy today! ☁️" ∧
      getDescription (some (⟨"Rain", d, i⟩ :: rest))
        (some (⟨"Rain", d, i⟩ :: rest)) = some "It's rainy today! 🌧️" ∧
      getDescription (some (⟨"Thunderstorm", d, i⟩ :: rest))
        (some (⟨"Thunderstorm", d, i⟩ :: rest)) =
          some "Thunderstorms ahead ⛈️" ∧
      getDescription (some (⟨"Snow", d, i⟩ :: rest))
        (some (⟨"Snow", d, i⟩ :: rest)) = some "It's snowing today! ❄️" ∧
      getDescription (some (⟨"Drizzle", d, i⟩ :: rest))
        (some (⟨"Drizzle", d, i⟩ :: rest)) = some "It's drizzling today! ☔" ∧
      getDescription (some (⟨"Mist", d, i⟩ :: rest))
        (some (⟨"Mist", d, i⟩ :: rest)) = some "It's misty today! 🌫️" := by
  simp only [List.mem_cons, List.not_mem_nil, or_false, not_or] at h
  obtain ⟨h1, h2, h3, h4, h5, h6, h7⟩ := h
  refine ⟨?_, rfl, rfl, rfl, rfl, rfl, rfl, rfl⟩
  simp [getDescription, condition, getDescriptionSwitch,
    h1, h2, h3, h4, h5, h6, h7]

theorem getDescription_condition_codes_witness :
    (("Tornado" : String) ∉ ["Clear", "Clouds", "Rain", "Thunderstorm",
        "Snow", "Drizzle", "Mist"]) ∧
      getDescription (some (⟨"Tornado", "tornado", "50d"⟩ :: []))
        (some (⟨"Tornado", "tornado", "50d"⟩ :: [])) =
          some ("Weather: " ++ "Tornado") :=
  ⟨by decide,
    (getDescription_condition_codes "Tornado" "tornado" "50d" []
      (by decide)).1⟩

/-- C9 counterexample: a unit value that is neither `"imperial"` nor
`"metric"` does not fail fast: both conversion functions return the
metric-converted value. -/
theorem invalid_unit_converts_anyway :
    ("kelvin" : String) ≠ "imperial" ∧ ("kelvin" : String) ≠ "metric" ∧
      toTemp "kelvin" 212 = 100 ∧ toWind "kelvin" (223694 / 100000) = 1 := by
  have hk : ("kelvin" : String) ≠ "imperial" := by decide
  refine ⟨hk, by decide, ?_, ?_⟩ <;> norm_num [toTemp, toWind, hk]

/-- C9 amended: for every unit value other than `"imperial"` (including
unrecognized ones), `toTemp` and `toWind` silently apply the metric
conversion instead of raising an error. -/
theorem nonimperial_unit_treated_as_metric (u : String) (f w : Rat)
    (h : u ≠ "imperial") :
    toTemp u f = (f - 32) * (5 / 9) ∧ toWind u w = w / (223694 / 100000) := by
  constructor <;> simp [toTemp, toWind, h]

theorem nonimperial_unit_treated_as_metric_witness :
    ("kelvin" : String) ≠ "imperial" ∧
      toTemp "kelvin" 212 = (212 - 32) * (5 / 9) ∧
      toWind "kelvin" 10 = 10 / (223694 / 100000) :=
  ⟨by decide,
    (nonimperial_unit_treated_as_metric "kelvin" 212 10 (by decide)).1,
    (nonimperial_unit_treated_as_metric "kelvin" 212 10 (by decide)).2⟩

/-- C3 counterexample: with `dt_txt = "bad-timestamp"` (no space) among
otherwise valid samples, the malformed sample is not excluded from the
output: it appears in it, keyed by its whole `dt_txt`. -/
theorem malformed_sample_not_excluded :
    getDailyForecast [sampleA, sampleBad, sampleB] =
        [sampleA, sampleBad, sampleB] ∧
      sampleBad ∈ getDailyForecast [sampleA, sampleBad, sampleB] ∧
      ¬ ' ' ∈ sampleBad.dt_txt.data := by
  have h : getDailyForecast [sampleA, sampleBad, sampleB] =
      [sampleA, sampleBad, sampleB] := by rfl
  refine ⟨h, ?_, by decide⟩
  rw [h]
  exact List.mem_cons_of_mem _ (List.mem_cons_self _ _)

/-- C3 amended: a sample whose `dt_txt` has no space separator is not
excluded: the reduction does not crash, keeps the sample keyed by its
entire `dt_txt` string, and processes the remaining samples normally. -/
theorem malformed_sample_kept (s1 bad s2 : Sample)
    (hbad : ¬ ' ' ∈ bad.dt_txt.data)
    (h1 : dateOf s1 ≠ bad.dt_txt.data)
    (h2 : dateOf s2 ≠ bad.dt_txt.data)
    (h12 : dateOf s1 ≠ dateOf s2) :
    getDailyForecast [s1, bad, s2] = [s1, bad, s2] := by
  have hdb : dateOf bad = bad.dt_txt.data := dateOf_of_no_space bad hbad
  have c2 : dateOf bad ≠ dateOf s1 := by
    rw [hdb]; exact fun he => h1 he.symm
  have c3a : dateOf s2 ≠ dateOf s1 := Ne.symm h12
  have c3b : dateOf s2 ≠ dateOf bad := by rw [hdb]; exact h2
  simp [getDailyForecast_eq, specKeepFirstPerDay, c2, c3a, c3b]

theorem malformed_sample_kept_witness :
    ((¬ ' ' ∈ sampleBad.dt_txt.data) ∧
      dateOf sampleA ≠ sampleBad.dt_txt.data ∧
      dateOf sampleB ≠ sampleBad.dt_txt.data ∧
      dateOf sampleA ≠ dateOf sampleB) ∧
    getDailyForecast [sampleA, sampleBad, sampleB] =
      [sampleA, sampleBad, sampleB] :=
  ⟨⟨by decide, by decide, by decide, by decide⟩,
    malformed_sample_kept sampleA sampleBad sampleB
      (by decide) (by decide) (by decide) (by decide)⟩

/-- C10: the reducer (a total function in this model, so it returns
normally on every list of samples) groups a sample whose `dt_txt` has no
space under its entire `dt_txt` string as the date key, and such a
sample occupies its own map entry and appears in the output. -/
theorem no_space_sample_keyed_by_whole_dt_txt (item : Sample)
    (h : ¬ ' ' ∈ item.dt_txt.data) :
    dateOf item = item.dt_txt.data ∧ getDailyForecast [item] = [item] := by
  refine ⟨dateOf_of_no_space item h, ?_⟩
  simp [getDailyForecast_eq, specKeepFirstPerDay]

theorem no_space_sample_keyed_by_whole_dt_txt_witness :
    (¬ ' ' ∈ sampleBad.dt_txt.data) ∧
      dateOf sampleBad = sampleBad.dt_txt.data ∧
      getDailyForecast [sampleBad] = [sampleBad] :=
  ⟨by decide,
    (no_space_sample_keyed_by_whole_dt_txt sampleBad (by decide)).1,
    (no_space_sample_keyed_by_whole_dt_txt sampleBad (by decide)).2⟩
